import Mathlib

/-!
Verification development for the memepool mempool-prediction backend.

The definitions below are a shallow embedding of the TypeScript sources:
`src/backend/src/services/MempoolMonitor.ts` (packer, base-fee oracle,
accuracy scorer, sandwich detector, prediction-map maintenance),
`src/backend/src/services/ProtocolAnalyzer.ts` (transaction decoder) and
`src/backend/src/services/PredictionService.ts` (alternative forecaster).
JavaScript bigints are modelled as `Nat`/`Int` (all on-chain quantities are
unsigned; the only possibly-negative intermediate, `availableFeeForTip`, is
an `Int`), nullable fields as `Option`, JS `Map`s as association lists in
insertion order, and the stable `Array.prototype.sort` as the stable
`List.insertionSort` (a stable sort is fully determined by the comparator
preorder, so any stable implementation is a faithful model).
-/

namespace Memepool

/-- A pending transaction as observed from the node (ethers
`TransactionResponse`): fee fields are nullable unsigned bigints, `data` is
the 0x-prefixed calldata hex string. -/
structure Tx where
  hash : String
  toAddr : Option String
  value : Nat
  gasLimit : Nat
  maxFeePerGas : Option Nat
  maxPriorityFeePerGas : Option Nat
  gasPrice : Option Nat
  data : String
  deriving Repr, DecidableEq, Inhabited

/-- In-memory state of `MempoolMonitor`: the pending-transaction map (values
in insertion order), the block-number-keyed prediction map, the last seen
block gas limit, last base fee, and the rolling base-fee window. -/
structure MonitorState where
  pendingTransactions : List Tx
  blockPredictions : List (Nat × List String)
  lastBlockGasLimit : Nat
  lastBaseFee : Nat
  baseFeeTrend : List Nat
  deriving Repr, DecidableEq, Inhabited

/-- Embedding of `MempoolMonitor.getEffectivePriorityFee`: EIP-1559
transactions (discriminated in the source by `maxPriorityFeePerGas > 0`) get
`maxPriorityFeePerGas` capped by the fee left over the last base fee, floored
at zero; otherwise legacy transactions get 10% of `gasPrice`. -/
def getEffectivePriorityFee (lastBaseFee : Nat) (tx : Tx) : Int :=
  let maxPriorityFeePerGas : Int := (tx.maxPriorityFeePerGas.getD 0 : Nat)
  let maxFeePerGas : Int := (tx.maxFeePerGas.getD 0 : Nat)
  let gasPrice : Int := (tx.gasPrice.getD 0 : Nat)
  if 0 < maxPriorityFeePerGas then
    let availableFeeForTip := maxFeePerGas - (lastBaseFee : Int)
    if maxPriorityFeePerGas < availableFeeForTip then maxPriorityFeePerGas
    else if 0 < availableFeeForTip then availableFeeForTip
    else 0
  else if 0 < gasPrice then gasPrice * 10 / 100
  else 0

/-- Sign of the base-fee trend `(last - first) / length` computed by
`estimateNextBaseFee`; the source forces the trend to `0` for windows of
length at most one. -/
def trendPositive (s : MonitorState) : Bool :=
  decide (1 < s.baseFeeTrend.length) &&
    decide (s.baseFeeTrend.headD 0 < s.baseFeeTrend.getLastD 0)

/-- Embedding of `MempoolMonitor.estimateNextBaseFee`: default 0.1 Gwei when
the window is empty (or the last base fee is zero, which is falsy in JS);
otherwise `lastBaseFee ± lastBaseFee * (1125 or 875) / 1000` depending on the
trend sign, exactly as the source computes it. -/
def estimateNextBaseFee (s : MonitorState) : Nat :=
  if s.baseFeeTrend.isEmpty || s.lastBaseFee == 0 then 100000000
  else
    let estimatedChange :=
      s.lastBaseFee * (if trendPositive s then 1125 else 875) / 1000
    if trendPositive s then s.lastBaseFee + estimatedChange
    else s.lastBaseFee - estimatedChange

/-- Fee-viability filter from `predictNextBlock`: a transaction is skipped
iff its `maxFeePerGas` is present and non-zero (JS truthiness) and below
`nextBaseFee / 2`. -/
def filterViable (nextBaseFee : Nat) (txs : List Tx) : List Tx :=
  txs.filter (fun tx =>
    !(decide (0 < tx.maxFeePerGas.getD 0) &&
      decide (tx.maxFeePerGas.getD 0 < nextBaseFee / 2)))

/-- First-occurrence deduplication, the key order of a JS `Map` built by
repeated insertion: each element keeps its first occurrence and loses the
later ones. -/
def firstDedup {α : Type} [BEq α] : List α → List α
  | [] => []
  | x :: xs => x :: (firstDedup xs).filter (fun y => y != x)

/-- The distinct effective-priority-fee keys of `txsByPriority`, sorted
descending as `sortedGroups` sorts them. -/
def groupKeysSorted (lastBaseFee : Nat) (txs : List Tx) : List Int :=
  List.insertionSort (fun a b => b ≤ a)
    (firstDedup (txs.map (getEffectivePriorityFee lastBaseFee)))

/-- The order in which `predictNextBlock` visits transactions: priority-fee
groups in descending key order, each group in insertion order. -/
def packOrder (lastBaseFee : Nat) (txs : List Tx) : List Tx :=
  (groupKeysSorted lastBaseFee txs).flatMap
    (fun k => txs.filter (fun t => getEffectivePriorityFee lastBaseFee t == k))

/-- The greedy packing loop of `predictNextBlock`: skip a transaction when
adding it would push the running gas over the hard cap, otherwise include it
and stop as soon as the running gas reaches the target. -/
def packTxs (hardCap targetGasUsed : Nat) : List Tx → Nat → List Tx
  | [], _ => []
  | t :: ts, gasUsed =>
    if hardCap < gasUsed + t.gasLimit then packTxs hardCap targetGasUsed ts gasUsed
    else if targetGasUsed ≤ gasUsed + t.gasLimit then [t]
    else t :: packTxs hardCap targetGasUsed ts (gasUsed + t.gasLimit)

/-- Target gas of `predictNextBlock`: 95% of the last block gas limit. -/
def targetGasUsedOf (s : MonitorState) : Nat :=
  s.lastBlockGasLimit * 95 / 100

/-- Hard cap of the packing loop: `(targetGasUsed * 12) / 10`. -/
def hardCapOf (s : MonitorState) : Nat :=
  targetGasUsedOf s * 12 / 10

/-- The list of transactions predicted for the next block: the pending set,
fee-filtered, ordered by priority group, and greedily packed. -/
def predictedTxsOf (s : MonitorState) : List Tx :=
  packTxs (hardCapOf s) (targetGasUsedOf s)
    (packOrder s.lastBaseFee (filterViable (estimateNextBaseFee s) s.pendingTransactions)) 0

/-- The predicted transaction hashes (`predictedTxs` in the source). -/
def predictedTransactionsOf (s : MonitorState) : List String :=
  (predictedTxsOf s).map (fun t => t.hash)

/-- The average effective priority fee of the predicted transactions in wei,
computed as the source does: sum of per-hash map lookups (0 for a missing
hash), bigint-divided by the number of predicted hashes, 0 when empty. -/
def predictedGasPriceWei (s : MonitorState) : Int :=
  let hashes := predictedTransactionsOf s
  if 0 < hashes.length then
    (hashes.map (fun h =>
      match s.pendingTransactions.find? (fun t => t.hash == h) with
      | some t => getEffectivePriorityFee s.lastBaseFee t
      | none => 0)).sum / (hashes.length : Int)
  else 0

/-- `prediction.predictedGasPrice`: the wei average converted to Gwei. -/
def predictedGasPrice (s : MonitorState) : ℚ :=
  (predictedGasPriceWei s : ℚ) / 1000000000

/-- JS `Map.set`: replace the value at an existing key in place, otherwise
append the binding. -/
def mapSet : List (Nat × List String) → Nat → List String → List (Nat × List String)
  | [], k, v => [(k, v)]
  | (k0, v0) :: rest, k, v =>
    if k0 = k then (k, v) :: rest else (k0, v0) :: mapSet rest k v

/-- Effect of one `predictNextBlock` run on the monitor state, parameterised
by whether the store write of the `BlockPrediction` succeeded: the in-memory
prediction map is updated only on success (the catch branch returns without
touching it). -/
def predictNextBlock (s : MonitorState) (nextBlockNumber : Nat) (saveOk : Bool) : MonitorState :=
  if saveOk then
    { s with blockPredictions :=
        mapSet s.blockPredictions nextBlockNumber (predictedTransactionsOf s) }
  else s

/-- Exact matches of `calculateAccuracy`: predicted hashes present in the
actual block. -/
def exactMatches (predicted actual : List String) : List String :=
  predicted.filter (fun h => actual.contains h)

/-- Predicted hashes missing from the actual block. -/
def remainingPredicted (predicted actual : List String) : List String :=
  predicted.filter (fun h => !actual.contains h)

/-- Actual hashes that were not predicted. -/
def remainingActual (predicted actual : List String) : List String :=
  actual.filter (fun h => !predicted.contains h)

/-- Lookup in the pending-transaction map. -/
def lookupPending (pending : List Tx) (h : String) : Option Tx :=
  pending.find? (fun t => t.hash == h)

/-- Embedding of `MempoolMonitor.areSimilarTransactions`: same `to`,
effective priority fees within 10% of the first, values within 5% of the
first, identical 4-byte selector (first 10 characters of calldata). -/
def areSimilarTransactions (lastBaseFee : Nat) (tx1 tx2 : Tx) : Bool :=
  if tx1.toAddr != tx2.toAddr then false
  else
    let price1 := getEffectivePriorityFee lastBaseFee tx1
    let price2 := getEffectivePriorityFee lastBaseFee tx2
    let priceDiff := if price2 < price1 then price1 - price2 else price2 - price1
    if price1 * 10 / 100 < priceDiff then false
    else
      let value1 : Int := tx1.value
      let value2 : Int := tx2.value
      let valueDiff := if value2 < value1 then value1 - value2 else value2 - value1
      if value1 * 5 / 100 < valueDiff then false
      else if tx1.data.take 10 != tx2.data.take 10 then false
      else true

/-- Partial matches of `calculateAccuracy`: each unmatched predicted hash
contributes at most once, when its pending-map entry is similar to some
unmatched actual transaction found in the pending map. -/
def partialMatchCount (pending : List Tx) (lastBaseFee : Nat)
    (predicted actual : List String) : Nat :=
  (remainingPredicted predicted actual).countP (fun p =>
    match lookupPending pending p with
    | none => false
    | some tp =>
      (remainingActual predicted actual).any (fun a =>
        match lookupPending pending a with
        | none => false
        | some ta => areSimilarTransactions lastBaseFee tp ta))

/-- Embedding of `MempoolMonitor.calculateAccuracy`. -/
def calculateAccuracy (pending : List Tx) (lastBaseFee : Nat)
    (predicted actual : List String) : ℚ :=
  if predicted.length = 0 then 0
  else
    (((exactMatches predicted actual).length * 100 +
        partialMatchCount pending lastBaseFee predicted actual * 50 : Nat) : ℚ) /
      (predicted.length : ℚ)

/-- JS `String.prototype.slice` on character indices. -/
def jsSlice (s : String) (a b : Nat) : String :=
  ((s.data.drop a).take (b - a)).asString

/-- JS `String.prototype.toLowerCase` for ASCII data. -/
def jsToLower (s : String) : String :=
  s.map Char.toLower

/-- Embedding of `MempoolMonitor.getTokenPair`: `none` when the calldata is
shorter than 138 characters, otherwise the two 40-hex-digit slices at
offsets 34 and 98, lowercased, sorted and joined with a dash. -/
def getTokenPair (tx : Tx) : Option String :=
  if tx.data.length < 138 then none
  else
    let token1 := jsToLower ("0x" ++ jsSlice tx.data 34 74)
    let token2 := jsToLower ("0x" ++ jsSlice tx.data 98 138)
    some (if token2 < token1 then token2 ++ "-" ++ token1 else token1 ++ "-" ++ token2)

/-- Comparator of the sandwich detector sort: descending effective priority
fee (the JS comparator is `Number(fee b - fee a)` with a stable sort). -/
def feeDescRel (lastBaseFee : Nat) (a b : Tx) : Prop :=
  getEffectivePriorityFee lastBaseFee b ≤ getEffectivePriorityFee lastBaseFee a

instance (lastBaseFee : Nat) : DecidableRel (feeDescRel lastBaseFee) :=
  fun a b => inferInstanceAs (Decidable
    (getEffectivePriorityFee lastBaseFee b ≤ getEffectivePriorityFee lastBaseFee a))

instance (lastBaseFee : Nat) : IsTotal Tx (feeDescRel lastBaseFee) :=
  ⟨fun _ _ => le_total _ _⟩

instance (lastBaseFee : Nat) : IsTrans Tx (feeDescRel lastBaseFee) :=
  ⟨fun _ _ _ h1 h2 => le_trans h2 h1⟩

/-- A token-pair group sorted by descending effective priority fee. -/
def sortByFeeDesc (lastBaseFee : Nat) (g : List Tx) : List Tx :=
  List.insertionSort (feeDescRel lastBaseFee) g

/-- The token-pair group of a key: the swap transactions whose extracted
token pair is that key, in arrival order (the JS `Map` grouping). -/
def pairGroup (swapTxs : List Tx) (tokenPair : String) : List Tx :=
  swapTxs.filter (fun t => getTokenPair t == some tokenPair)

/-- Embedding of `MempoolMonitor.findSandwichOpportunities`: group swaps by
token pair (ungroupable transactions dropped), keep groups of at least three,
sort by descending fee and emit `(first, interior, last)` for every interior
transaction worth at least 0.1 ETH. -/
def findSandwichOpportunities (lastBaseFee : Nat) (swapTxs : List Tx) :
    List (Tx × Tx × Tx) :=
  (firstDedup (swapTxs.filterMap getTokenPair)).flatMap (fun tokenPair =>
    let pairTxs := pairGroup swapTxs tokenPair
    if pairTxs.length < 3 then []
    else
      let sorted := sortByFeeDesc lastBaseFee pairTxs
      (List.range' 1 (sorted.length - 2)).filterMap (fun i =>
        let target := sorted.getD i default
        if target.value < 100000000000000000 then none
        else some (sorted.getD 0 default, target, sorted.getD (sorted.length - 1) default)))

/-- Prediction-map part of `cleanupOldTransactions`: predictions strictly
below `currentBlock - 5` are dropped (`blockNum < currentBlock - 5` over JS
numbers is `blockNum + 5 < currentBlock` over naturals). -/
def cleanupOldPredictions (m : List (Nat × List String)) (currentBlock : Nat) :
    List (Nat × List String) :=
  m.filter (fun e => !decide (e.1 + 5 < currentBlock))

/-- Prediction-map part of `compareWithPrediction`: the prediction for the
arrived block is deleted once the comparison row is stored; on a store
failure (or when no prediction exists) the map is unchanged. -/
def consumePrediction (m : List (Nat × List String)) (blockNumber : Nat)
    (storeOk : Bool) : List (Nat × List String) :=
  if storeOk then m.filter (fun e => e.1 ≠ blockNumber) else m

/-- Effect of `handleNewBlock` on the prediction map: comparison first, then
stale cleanup. -/
def handleBlockPredictions (m : List (Nat × List String)) (blockNumber : Nat)
    (storeOk : Bool) : List (Nat × List String) :=
  cleanupOldPredictions (consumePrediction m blockNumber storeOk) blockNumber

/-- SWAP selector list of `ProtocolAnalyzer.METHOD_SIGNATURES`. -/
def METHOD_SIGNATURES_SWAP : List String :=
  ["0x38ed1739", "0x7ff36ab5", "0x18cbafe5", "0x5c11d795",
   "0xc04b8d59", "0xdb3e2198", "0x791ac947", "0x472b43f3"]

/-- LIQUIDITY selector list. -/
def METHOD_SIGNATURES_LIQUIDITY : List String :=
  ["0xe8e33700", "0xbaa2abde", "0x4515cef3", "0x87b21efc"]

/-- LENDING selector list. -/
def METHOD_SIGNATURES_LENDING : List String :=
  ["0xe8eda9df", "0xa415bcad", "0x573ade81", "0x69328dec"]

/-- TRANSFER selector list. -/
def METHOD_SIGNATURES_TRANSFER : List String :=
  ["0xa9059cbb", "0x23b872dd"]

/-- Known bridge contract addresses. -/
def BRIDGE_CONTRACTS : List String :=
  ["0x40ec5b33f54e0e8a33a975908c5ba1c14e5bbbdf",
   "0xa0c68c638235ee32657e8f720a23cec1bfc77c77",
   "0x3ee18b2214aff97000d974cf647e7c347e8fa585",
   "0x99c9fc46f92e8a1c0dec1b1747d010903e884be1"]

/-- The static protocol-label table of `initializeKnownProtocols`. -/
def knownProtocols : List (String × String) :=
  [("0x68b3465833fb72a70ecdf485e0e4c7bd8665fc45", "Uniswap V3"),
   ("0x7a250d5630b4cf539739df2c5dacb4c659f2488d", "Uniswap V2"),
   ("0xd9e1ce17f2641f24ae83637ab66a2cca9c378b9f", "SushiSwap"),
   ("0x1111111254eeb25477b68fb85ed929f73a960582", "1inch"),
   ("0x7d2768de32b0b80b7a3454c06bdac94a69ddc7a9", "AAVE V2"),
   ("0xbebc44782c7db0a1a60cb6fe97d0b483032ff1c7", "Curve")]

/-- JS `String.prototype.includes`. -/
def strContains (s pat : String) : Bool :=
  (List.range (s.length + 1)).any (fun i => pat.isPrefixOf (s.drop i))

/-- The decoded annotation record (`TransactionDetails` in
`ProtocolAnalyzer.ts`); the `type` union is modelled as a string, matching
the TypeScript string-literal union. -/
structure TransactionDetails where
  protocol : Option String := none
  methodName : Option String := none
  params : Option (List String) := none
  isSandwichTarget : Option Bool := none
  type : Option String := none
  value : Option String := none
  category : Option String := none
  deriving Repr, DecidableEq, Inhabited

/-- Embedding of `ProtocolAnalyzer.determineTransactionType`: bridge address
check, then the selector lists, then method-name keyword heuristics, then the
plain-ETH-transfer check, else unknown. -/
def determineTransactionType (tx : Tx) (methodName : Option String) : String :=
  let signature := jsToLower (tx.data.take 10)
  if (match tx.toAddr with
      | some a => BRIDGE_CONTRACTS.contains (jsToLower a)
      | none => false) then "bridge"
  else if METHOD_SIGNATURES_SWAP.contains signature then "swap"
  else if METHOD_SIGNATURES_LIQUIDITY.contains signature then "liquidity"
  else if METHOD_SIGNATURES_LENDING.contains signature then "lending"
  else if METHOD_SIGNATURES_TRANSFER.contains signature then "transfer"
  else
    let byName : Option String :=
      match methodName with
      | none => none
      | some m =>
        let lowerMethod := jsToLower m
        if strContains lowerMethod "swap" then some "swap"
        else if strContains lowerMethod "liquidity" || strContains lowerMethod "pool" then
          some "liquidity"
        else if strContains lowerMethod "borrow" || strContains lowerMethod "lend" ||
            strContains lowerMethod "repay" || strContains lowerMethod "deposit" then
          some "lending"
        else if strContains lowerMethod "bridge" then some "bridge"
        else if lowerMethod == "transfer" || lowerMethod == "transferFrom" then
          some "transfer"
        else none
    match byName with
    | some t => t
    | none => if tx.data == "0x" && decide (0 < tx.value) then "transfer" else "unknown"

/-- Embedding of `ProtocolAnalyzer.analyzeTransaction`. The outcomes of the
network-dependent steps are parameters: `decoded` is the successful ABI parse
(method name and stringified arguments), `signatureName` the 4-byte-directory
fallback, and the two booleans the result of `detectSandwichPattern`. A
transaction without a `to` address returns `type = "unknown"` immediately. -/
def analyzeTransaction (tx : Tx) (decoded : Option (String × List String))
    (signatureName : Option String)
    (sandwichDetected sandwichIsTarget : Bool) : TransactionDetails :=
  match tx.toAddr with
  | none => { type := some "unknown" }
  | some toAddr =>
    let methodName :=
      match decoded with
      | some (n, _) => some n
      | none => signatureName
    let params := decoded.map (fun d => d.2)
    let baseType := determineTransactionType tx methodName
    let typ := if sandwichDetected then "sandwich" else baseType
    let sandwichTarget := if sandwichDetected then some sandwichIsTarget else none
    let result : TransactionDetails :=
      { protocol := knownProtocols.lookup (jsToLower toAddr),
        methodName := methodName, params := params,
        isSandwichTarget := sandwichTarget, type := some typ,
        value := some (toString tx.value) }
    if typ == "transfer" then
      match params with
      | some (recipient :: amount :: _) =>
        { result with category := some "erc20",
                      params := some [recipient, amount, toAddr] }
      | _ => result
    else result

/-- A row of the `Transaction` entity as `PredictionService` reads it back
from the store (string columns parsed to bigints, missing columns `none`). -/
structure Transaction where
  hash : String
  gasLimit : Nat
  maxFeePerGas : Option Nat
  maxPriorityFeePerGas : Option Nat
  gasPrice : Option Nat
  deriving Repr, DecidableEq, Inhabited

/-- The next-base-fee estimate of `PredictionService.createPrediction`. -/
def serviceNextBaseFee (currentBaseFee gasLimit gasUsed : Nat) : Nat :=
  if gasLimit / 2 < gasUsed then currentBaseFee + currentBaseFee * 12 / 8
  else currentBaseFee - currentBaseFee * 1 / 8

/-- The transaction-selection loop of `PredictionService.createPrediction`. -/
def selectTransactions (nextBaseFee maxGasLimit : Nat) :
    List Transaction → Nat → List Transaction
  | [], _ => []
  | t :: ts, used =>
    if maxGasLimit < used + t.gasLimit then
      selectTransactions nextBaseFee maxGasLimit ts used
    else
      let maxFeePerGas := t.maxFeePerGas.getD (t.gasPrice.getD 0)
      let maxPriorityFeePerGas := t.maxPriorityFeePerGas.getD 0
      if nextBaseFee + maxPriorityFeePerGas ≤ maxFeePerGas then
        t :: selectTransactions nextBaseFee maxGasLimit ts (used + t.gasLimit)
      else selectTransactions nextBaseFee maxGasLimit ts used

/-- The `BlockPrediction` record written by `PredictionService`; the
`predictedGasPrice` column receives the stringified `nextBaseFee` (a wei
amount), kept here as the numeric value. -/
structure ServicePrediction where
  blockNumber : Nat
  predictedTransactions : List String
  predictedGasPrice : Nat
  deriving Repr, DecidableEq, Inhabited

/-- Embedding of `PredictionService.createPrediction`: `none` when there are
no pending rows (the service returns without writing), otherwise the stored
prediction for `blockNumber + 1`. -/
def createPrediction (blockNumber currentBaseFee gasLimit gasUsed : Nat)
    (pendingTxs : List Transaction) : Option ServicePrediction :=
  if pendingTxs.isEmpty then none
  else
    let nextBaseFee := serviceNextBaseFee currentBaseFee gasLimit gasUsed
    some { blockNumber := blockNumber + 1,
           predictedTransactions :=
             (selectTransactions nextBaseFee gasLimit pendingTxs 0).map (fun t => t.hash),
           predictedGasPrice := nextBaseFee }

/-- Total gas demand of a transaction list: the sum of the `gasLimit`
fields, the quantity the packing loop accumulates in `totalGasUsed`. -/
def sumGas (l : List Tx) : Nat :=
  (l.map Tx.gasLimit).sum

/-- Claim-side formula for the base-fee oracle, following the spec words for
comparison with the source: `last + last × 12.5%` on a positive trend,
`last − last × 12.5%` otherwise, 0.1 Gwei on an empty window, with trend
`(last − first) / |window|`. -/
def estimateNextBaseFeeClaim (s : MonitorState) : ℚ :=
  if s.baseFeeTrend.isEmpty then 100000000
  else
    let last : ℚ := (s.baseFeeTrend.getLastD 0 : Nat)
    let first : ℚ := (s.baseFeeTrend.headD 0 : Nat)
    let trend := (last - first) / (s.baseFeeTrend.length : ℚ)
    if 0 < trend then last + last * 125 / 1000 else last - last * 125 / 1000

/-- Claim-side fee-viability predicate, following the claim words for
comparison with the source filter: drop iff `maxFeePerGas < nextBaseFee / 2`,
where a transaction without `maxFeePerGas` is judged by its `gasPrice`. -/
def dropsByFeeViabilityClaim (nextBaseFee : Nat) (tx : Tx) : Bool :=
  match tx.maxFeePerGas with
  | some m => decide (m < nextBaseFee / 2)
  | none => decide (tx.gasPrice.getD 0 < nextBaseFee / 2)

/-- A pending transaction whose gas limit is 1.14× the block gas limit of
`sCexPack`, viable by fee and alone in the mempool. -/
def txBig : Tx :=
  ⟨"0xa1", some "0xb0", 0, 114, some 1000000000, some 1, none, "0x"⟩

/-- A monitor state with a 100-gas block limit and `txBig` pending. -/
def sCexPack : MonitorState :=
  ⟨[txBig], [], 100, 0, []⟩

/-- A monitor state with a one-element base-fee window at 2 Gwei, so the
trend is forced to zero and the decreasing branch is taken. -/
def sTrendDown : MonitorState :=
  ⟨[], [], 30000000, 2000000000, [2000000000]⟩

/-- A legacy transaction (no `maxFeePerGas`) with a 1-wei gas price. -/
def txLegacyLow : Tx :=
  ⟨"0xa2", some "0xc0", 0, 21000, none, none, some 1, "0x"⟩

/-- A pending `Transaction` row for the `PredictionService` path: 21000 gas,
`maxFeePerGas` 10 Gwei, `maxPriorityFeePerGas` 1 Gwei. -/
def txServiceRow : Transaction :=
  ⟨"0xa3", 21000, some 10000000000, some 1000000000, none⟩

/-- The same transaction as seen by the monitor-side fee computation. -/
def txServiceMm : Tx :=
  ⟨"0xa3", some "0xd0", 0, 21000, some 10000000000, some 1000000000, none, "0x"⟩

/-- A contract-creation transaction: no `to` address, non-empty calldata. -/
def txNoTo : Tx :=
  ⟨"0xdeadbeef", none, 0, 100000, none, none, some 5, "0x6080604052"⟩

theorem getEffectivePriorityFee_nonneg (lastBaseFee : Nat) (tx : Tx) :
    0 ≤ getEffectivePriorityFee lastBaseFee tx := by
  simp only [getEffectivePriorityFee]
  split_ifs <;> omega

theorem packTxs_subset (hardCap targetGasUsed : Nat) :
    ∀ (l : List Tx) (gasUsed : Nat) (t : Tx),
      t ∈ packTxs hardCap targetGasUsed l gasUsed → t ∈ l := by
  intro l
  induction l with
  | nil => intro u t h; simp [packTxs] at h
  | cons x xs ih =>
    intro u t h
    simp only [packTxs] at h
    split_ifs at h with h1 h2
    · exact List.mem_cons_of_mem _ (ih u t h)
    · simp at h; simp [h]
    · rcases List.mem_cons.mp h with h3 | h3
      · simp [h3]
      · exact List.mem_cons_of_mem _ (ih _ t h3)

theorem mem_packOrder {lastBaseFee : Nat} {txs : List Tx} {t : Tx}
    (h : t ∈ packOrder lastBaseFee txs) : t ∈ txs := by
  simp only [packOrder, List.mem_flatMap] at h
  obtain ⟨k, _, hmem⟩ := h
  exact (List.mem_filter.mp hmem).1

theorem mem_filterViable {nextBaseFee : Nat} {txs : List Tx} {tx : Tx} :
    tx ∈ filterViable nextBaseFee txs ↔
      tx ∈ txs ∧
        ¬(0 < tx.maxFeePerGas.getD 0 ∧ tx.maxFeePerGas.getD 0 < nextBaseFee / 2) := by
  simp only [filterViable, List.mem_filter, and_congr_right_iff]
  intro _
  simp only [Bool.not_eq_true', Bool.and_eq_false_iff, decide_eq_false_iff_not,
    Nat.not_lt, not_and]
  omega

theorem packTxs_le_hardCap (hardCap targetGasUsed : Nat) :
    ∀ (l : List Tx) (gasUsed : Nat), gasUsed ≤ hardCap →
      gasUsed + sumGas (packTxs hardCap targetGasUsed l gasUsed) ≤ hardCap := by
  intro l
  induction l with
  | nil => intro u hu; simpa [packTxs, sumGas] using hu
  | cons t ts ih =>
    intro u hu
    simp only [packTxs]
    split_ifs with h1 h2
    · exact ih u hu
    · simp only [sumGas, List.map_cons, List.map_nil, List.sum_cons, List.sum_nil]
      omega
    · have hrec := ih (u + t.gasLimit) (by omega)
      simp only [sumGas, List.map_cons, List.sum_cons] at hrec ⊢
      omega

/-- C1: the claim bounds the packed gas by `1.14 × 0.95 × blockGasLimit`,
but the source hard cap in `predictNextBlock` is `(targetGasUsed * 12) / 10`,
i.e. 1.2 × target ≈ 1.14 × blockGasLimit. At `sCexPack` (gas limit 100,
target 95, hard cap 114) the single 114-gas transaction is packed, and
114 exceeds `1.14 × 0.95 × 100 = 108.3`. -/
theorem predictNextBlock_gas_bound_counterexample :
    sumGas (predictedTxsOf sCexPack) = 114 ∧
    ¬((sumGas (predictedTxsOf sCexPack) : ℚ) ≤
        57 / 50 * (19 / 20 * (sCexPack.lastBlockGasLimit : ℚ))) := by
  constructor
  · decide
  · rw [show sumGas (predictedTxsOf sCexPack) = 114 from by decide]
    show ¬((114 : ℚ) ≤ 57 / 50 * (19 / 20 * ((100 : Nat) : ℚ)))
    norm_num

/-- C1 (amended): the summed `gasLimit` of the emitted list never exceeds the
source hard cap `(⌊0.95 × blockGasLimit⌋ × 12) / 10`, and hence never exceeds
`1.14 × blockGasLimit`: a transaction is included only if the running gas plus
its `gasLimit` stays at or below that hard cap, and packing stops once the
running gas reaches the target `⌊0.95 × blockGasLimit⌋`. -/
theorem predictNextBlock_gas_bound (s : MonitorState) :
    sumGas (predictedTxsOf s) ≤ hardCapOf s ∧
    (sumGas (predictedTxsOf s) : ℚ) ≤ 57 / 50 * (s.lastBlockGasLimit : ℚ) := by
  have hmain := packTxs_le_hardCap (hardCapOf s) (targetGasUsedOf s)
    (packOrder s.lastBaseFee
      (filterViable (estimateNextBaseFee s) s.pendingTransactions)) 0 (Nat.zero_le _)
  rw [Nat.zero_add] at hmain
  refine ⟨hmain, ?_⟩
  have hT : ((targetGasUsedOf s : ℕ) : ℚ) ≤
      (s.lastBlockGasLimit : ℚ) * 95 / 100 := by
    have := (Nat.cast_div_le (α := ℚ) (m := s.lastBlockGasLimit * 95) (n := 100))
    simpa [targetGasUsedOf, Nat.cast_mul] using this
  have hH : ((hardCapOf s : ℕ) : ℚ) ≤ ((targetGasUsedOf s : ℕ) : ℚ) * 12 / 10 := by
    have := (Nat.cast_div_le (α := ℚ) (m := targetGasUsedOf s * 12) (n := 10))
    simpa [hardCapOf, Nat.cast_mul] using this
  have hS : ((sumGas (predictedTxsOf s) : ℕ) : ℚ) ≤ ((hardCapOf s : ℕ) : ℚ) := by
    exact_mod_cast hmain
  linarith

/-- C3 (code bug): at a one-block window of 2 Gwei the trend is zero, so the
claimed estimate is `last − last × 12.5% = 1.75` Gwei, but the source computes
`estimatedChange = last × 875 / 1000` and then subtracts it from `last`,
returning `0.125 × last = 0.25` Gwei. -/
theorem estimateNextBaseFee_failing_input :
    estimateNextBaseFee sTrendDown = 250000000 ∧
    estimateNextBaseFeeClaim sTrendDown = 1750000000 ∧
    ((estimateNextBaseFee sTrendDown : ℚ) ≠ estimateNextBaseFeeClaim sTrendDown) := by
  have h1 : estimateNextBaseFee sTrendDown = 250000000 := by decide
  have h2 : estimateNextBaseFeeClaim sTrendDown = 1750000000 := by
    norm_num [estimateNextBaseFeeClaim, sTrendDown]
  refine ⟨h1, h2, ?_⟩
  rw [h1, h2]
  norm_num

/-- C4: the effective priority fee equals
`min(maxPriorityFeePerGas, max(0, maxFeePerGas − lastBaseFee))` for EIP-1559
transactions (those with a positive `maxPriorityFeePerGas`, the source
discriminator) and `gasPrice × 10%` (integer division) for legacy ones, and it
is non-negative in all cases. -/
theorem getEffectivePriorityFee_formula (lastBaseFee : Nat) (tx : Tx) :
    getEffectivePriorityFee lastBaseFee tx =
      (if 0 < tx.maxPriorityFeePerGas.getD 0 then
        min ((tx.maxPriorityFeePerGas.getD 0 : Nat) : Int)
          (max 0 (((tx.maxFeePerGas.getD 0 : Nat) : Int) - (lastBaseFee : Int)))
      else ((tx.gasPrice.getD 0 : Nat) : Int) * 10 / 100) ∧
    0 ≤ getEffectivePriorityFee lastBaseFee tx := by
  refine ⟨?_, getEffectivePriorityFee_nonneg lastBaseFee tx⟩
  simp only [getEffectivePriorityFee, min_def, max_def]
  split_ifs <;> omega

/-- C5 counterexample: a legacy transaction with no `maxFeePerGas` and a
1-wei `gasPrice` is kept by the source filter at `nextBaseFee = 10`, although
the claim (judging such transactions by their `gasPrice`) says it is dropped
since `1 < 10 / 2`. -/
theorem feeViability_filter_counterexample :
    filterViable 10 [txLegacyLow] = [txLegacyLow] ∧
    dropsByFeeViabilityClaim 10 txLegacyLow = true := by
  decide

/-- C5 (amended): the filter drops a pending transaction iff its
`maxFeePerGas` is present, non-zero and below `nextBaseFee / 2`; transactions
without (or with zero) `maxFeePerGas` are always kept and their `gasPrice` is
never consulted. Consequently every predicted transaction with a non-zero
`maxFeePerGas` satisfies `maxFeePerGas ≥ nextBaseFee / 2`, and every
predicted transaction has a non-negative effective priority fee. -/
theorem feeViability_filter_and_bounds (nextBaseFee : Nat) (txs : List Tx)
    (tx1 : Tx) (s : MonitorState) (tx2 : Tx) (h : tx2 ∈ predictedTxsOf s) :
    (tx1 ∈ filterViable nextBaseFee txs ↔
      tx1 ∈ txs ∧
        ¬(0 < tx1.maxFeePerGas.getD 0 ∧
          tx1.maxFeePerGas.getD 0 < nextBaseFee / 2)) ∧
    (0 < tx2.maxFeePerGas.getD 0 →
      estimateNextBaseFee s / 2 ≤ tx2.maxFeePerGas.getD 0) ∧
    0 ≤ getEffectivePriorityFee s.lastBaseFee tx2 := by
  refine ⟨mem_filterViable, ?_, getEffectivePriorityFee_nonneg _ _⟩
  have h1 : tx2 ∈ filterViable (estimateNextBaseFee s) s.pendingTransactions :=
    mem_packOrder (packTxs_subset _ _ _ _ _ h)
  have h2 := (mem_filterViable.mp h1).2
  omega

/-- C5 witness: `txBig` is predicted at `sCexPack`, and the theorem holds for
the legacy transaction `txLegacyLow` against the filter at base fee 10. -/
theorem feeViability_filter_and_bounds_witness :
    txBig ∈ predictedTxsOf sCexPack ∧
    ((txLegacyLow ∈ filterViable 10 [txLegacyLow] ↔
        txLegacyLow ∈ [txLegacyLow] ∧
          ¬(0 < txLegacyLow.maxFeePerGas.getD 0 ∧
            txLegacyLow.maxFeePerGas.getD 0 < 10 / 2)) ∧
      (0 < txBig.maxFeePerGas.getD 0 →
        estimateNextBaseFee sCexPack / 2 ≤ txBig.maxFeePerGas.getD 0) ∧
      0 ≤ getEffectivePriorityFee sCexPack.lastBaseFee txBig) :=
  ⟨by decide,
    feeViability_filter_and_bounds 10 [txLegacyLow] txLegacyLow sCexPack txBig (by decide)⟩

theorem exact_add_remaining (predicted actual : List String) :
    (exactMatches predicted actual).length +
      (remainingPredicted predicted actual).length = predicted.length :=
  (List.filter_append_perm (fun h => actual.contains h) predicted).length_eq.symm ▸
    (List.length_append _ _).symm

theorem exactMatches_toFinset (predicted actual : List String) :
    (exactMatches predicted actual).toFinset =
      predicted.toFinset ∩ actual.toFinset := by
  ext x
  simp [exactMatches, List.mem_filter, List.elem_iff]

theorem exactMatches_length {predicted : List String} (actual : List String)
    (hnd : predicted.Nodup) :
    (exactMatches predicted actual).length =
      (predicted.toFinset ∩ actual.toFinset).card := by
  rw [← exactMatches_toFinset]
  exact (List.toFinset_card_of_nodup (hnd.filter _)).symm

theorem partialMatchCount_le (pending : List Tx) (lastBaseFee : Nat)
    (predicted actual : List String) :
    partialMatchCount pending lastBaseFee predicted actual ≤
      (remainingPredicted predicted actual).length :=
  List.countP_le_length _

/-- C2: the accuracy score is `(exactMatches × 100 + partialMatches × 50) /
|predicted|` for a non-empty prediction (with `exactMatches` the cardinality
of the intersection when the predicted list has no duplicates, its invariant
in the monitor) and `0` for an empty one; it always lies in `[0, 100]`; a
set-equal non-empty prediction scores exactly 100; and a prediction disjoint
from the actual block with no similar transaction pair scores exactly 0. -/
theorem calculateAccuracy_spec (pending : List Tx) (lastBaseFee : Nat)
    (predicted actual : List String) (hnd : predicted.Nodup) :
    (predicted = [] → calculateAccuracy pending lastBaseFee predicted actual = 0) ∧
    (predicted ≠ [] →
      calculateAccuracy pending lastBaseFee predicted actual =
        ((predicted.toFinset ∩ actual.toFinset).card * 100 +
          partialMatchCount pending lastBaseFee predicted actual * 50 : ℚ) /
          (predicted.length : ℚ)) ∧
    0 ≤ calculateAccuracy pending lastBaseFee predicted actual ∧
    calculateAccuracy pending lastBaseFee predicted actual ≤ 100 ∧
    (predicted ≠ [] → predicted.toFinset = actual.toFinset →
      calculateAccuracy pending lastBaseFee predicted actual = 100) ∧
    ((∀ h ∈ predicted, h ∉ actual) →
      (∀ p ∈ predicted, ∀ a ∈ actual, ∀ tp ta,
        lookupPending pending p = some tp → lookupPending pending a = some ta →
        areSimilarTransactions lastBaseFee tp ta = false) →
      calculateAccuracy pending lastBaseFee predicted actual = 0) := by
  have hparts := exact_add_remaining predicted actual
  have hpc_le := partialMatchCount_le pending lastBaseFee predicted actual
  refine ⟨?_, ?_, ?_, ?_, ?_, ?_⟩
  · intro h
    simp [calculateAccuracy, h]
  · intro hne
    have hlen : predicted.length ≠ 0 := by
      simpa [List.length_eq_zero] using hne
    simp only [calculateAccuracy, if_neg hlen, exactMatches_length actual hnd]
    push_cast
    ring
  · by_cases hlen : predicted.length = 0
    · simp [calculateAccuracy, hlen]
    · simp only [calculateAccuracy, if_neg hlen]
      positivity
  · by_cases hlen : predicted.length = 0
    · simp [calculateAccuracy, hlen]
    · simp only [calculateAccuracy, if_neg hlen]
      rw [div_le_iff₀ (by positivity)]
      have hnat : (exactMatches predicted actual).length * 100 +
          partialMatchCount pending lastBaseFee predicted actual * 50 ≤
          100 * predicted.length := by omega
      calc (((exactMatches predicted actual).length * 100 +
            partialMatchCount pending lastBaseFee predicted actual * 50 : ℕ) : ℚ)
          ≤ ((100 * predicted.length : ℕ) : ℚ) := by exact_mod_cast hnat
        _ = 100 * (predicted.length : ℚ) := by push_cast; ring
  · intro hne hset
    have hlen : predicted.length ≠ 0 := by
      simpa [List.length_eq_zero] using hne
    have hall : ∀ h ∈ predicted, actual.contains h = true := by
      intro h hm
      have : h ∈ actual := by
        rw [← List.mem_toFinset, ← hset, List.mem_toFinset]
        exact hm
      exact List.elem_iff.mpr this
    have hexact : exactMatches predicted actual = predicted :=
      List.filter_eq_self.mpr hall
    have hrem : remainingPredicted predicted actual = [] := by
      refine List.filter_eq_nil_iff.mpr ?_
      intro a ha
      have hmem : a ∈ actual := by
        rw [← List.mem_toFinset, ← hset, List.mem_toFinset]
        exact ha
      simp [hmem]
    have hpc0 : partialMatchCount pending lastBaseFee predicted actual = 0 := by
      rw [partialMatchCount, hrem]
      rfl
    simp only [calculateAccuracy, if_neg hlen, hexact, hpc0]
    push_cast
    field_simp
  · intro hdisj hdis
    by_cases hlen : predicted.length = 0
    · simp [calculateAccuracy, hlen]
    · have hexact : exactMatches predicted actual = [] := by
        refine List.filter_eq_nil_iff.mpr ?_
        intro a ha
        simp only [Bool.not_eq_true]
        exact (Bool.not_eq_true _).mp (by simp [List.elem_iff, hdisj a ha])
      have hpc0 : partialMatchCount pending lastBaseFee predicted actual = 0 := by
        rw [partialMatchCount]
        refine List.countP_eq_zero.mpr ?_
        intro p hp
        have hpmem : p ∈ predicted := (List.mem_filter.mp hp).1
        cases hl : lookupPending pending p with
        | none => simp [hl]
        | some tp =>
          simp only [hl, Bool.not_eq_true]
          rw [List.any_eq_false]
          intro a ha
          have hamem : a ∈ actual := (List.mem_filter.mp ha).1
          cases hla : lookupPending pending a with
          | none => simp
          | some ta =>
            simpa using hdis p hpmem a hamem tp ta hl hla
      simp [calculateAccuracy, if_neg hlen, hexact, hpc0]

/-- C2 witness: the theorem instantiated at the one-transaction perfect
prediction `["0xp1"]` against actual `["0xp1"]` with an empty pending map. -/
theorem calculateAccuracy_spec_witness :
    (["0xp1"] : List String).Nodup ∧
    ((["0xp1"] = ([] : List String) → calculateAccuracy [] 0 ["0xp1"] ["0xp1"] = 0) ∧
    (["0xp1"] ≠ ([] : List String) →
      calculateAccuracy [] 0 ["0xp1"] ["0xp1"] =
        (((["0xp1"] : List String).toFinset ∩ (["0xp1"] : List String).toFinset).card * 100 +
          partialMatchCount [] 0 ["0xp1"] ["0xp1"] * 50 : ℚ) /
          ((["0xp1"] : List String).length : ℚ)) ∧
    0 ≤ calculateAccuracy [] 0 ["0xp1"] ["0xp1"] ∧
    calculateAccuracy [] 0 ["0xp1"] ["0xp1"] ≤ 100 ∧
    (["0xp1"] ≠ ([] : List String) →
      (["0xp1"] : List String).toFinset = (["0xp1"] : List String).toFinset →
      calculateAccuracy [] 0 ["0xp1"] ["0xp1"] = 100) ∧
    ((∀ h ∈ (["0xp1"] : List String), h ∉ (["0xp1"] : List String)) →
      (∀ p ∈ (["0xp1"] : List String), ∀ a ∈ (["0xp1"] : List String), ∀ tp ta,
        lookupPending [] p = some tp → lookupPending [] a = some ta →
        areSimilarTransactions 0 tp ta = false) →
      calculateAccuracy [] 0 ["0xp1"] ["0xp1"] = 0)) :=
  ⟨by decide, calculateAccuracy_spec [] 0 ["0xp1"] ["0xp1"] (by decide)⟩

theorem find?_hash_eq_of_mem {pending : List Tx} {t : Tx}
    (hnd : (pending.map Tx.hash).Nodup) (hmem : t ∈ pending) :
    pending.find? (fun x => x.hash == t.hash) = some t := by
  induction pending with
  | nil => cases hmem
  | cons x xs ih =>
    rcases List.mem_cons.mp hmem with rfl | hmem2
    · simp [List.find?_cons_of_pos]
    · rw [List.map_cons] at hnd
      have hnd2 := List.nodup_cons.mp hnd
      have hx : ¬(x.hash == t.hash) = true := by
        simp only [beq_iff_eq]
        intro he
        exact hnd2.1 (he ▸ List.mem_map_of_mem Tx.hash hmem2)
      have hfalse : (x.hash == t.hash) = false := by simpa using hx
      rw [List.find?_cons, hfalse]
      exact ih hnd2.2 hmem2

theorem predictedTxs_mem_pending {s : MonitorState} {t : Tx}
    (h : t ∈ predictedTxsOf s) : t ∈ s.pendingTransactions :=
  (mem_filterViable.mp (mem_packOrder (packTxs_subset _ _ _ _ _ h))).1

theorem predictedGasPriceWei_eq (s : MonitorState)
    (hnd : (s.pendingTransactions.map Tx.hash).Nodup) :
    predictedGasPriceWei s =
      if 0 < (predictedTxsOf s).length then
        ((predictedTxsOf s).map (getEffectivePriorityFee s.lastBaseFee)).sum /
          ((predictedTxsOf s).length : Int)
      else 0 := by
  have hmap : (predictedTxsOf s).map
      ((fun h => match s.pendingTransactions.find? (fun t => t.hash == h) with
        | some t => getEffectivePriorityFee s.lastBaseFee t
        | none => 0) ∘ (fun t => t.hash)) =
      (predictedTxsOf s).map (getEffectivePriorityFee s.lastBaseFee) := by
    refine List.map_congr_left ?_
    intro t ht
    simp only [Function.comp_apply]
    rw [find?_hash_eq_of_mem hnd (predictedTxs_mem_pending ht)]
  simp only [predictedGasPriceWei, predictedTransactionsOf, List.length_map,
    List.map_map, hmap]

/-- C6 counterexample: `PredictionService.createPrediction` also persists
`BlockPrediction` rows, and it stores the estimated next base fee (a wei
amount) in `predictedGasPrice`: with current base fee 1 Gwei, a busy block
and one viable pending transaction it stores 2500000000, while the average
effective priority fee of the predicted transaction divided by 10^9 is 1. -/
theorem createPrediction_gasPrice_counterexample :
    createPrediction 100 1000000000 30000000 20000000 [txServiceRow] =
      some { blockNumber := 101, predictedTransactions := ["0xa3"],
             predictedGasPrice := 2500000000 } ∧
    (getEffectivePriorityFee 1000000000 txServiceMm : ℚ) / 1000000000 = 1 ∧
    ((2500000000 : ℚ) ≠ 1) := by
  refine ⟨by decide, ?_, by norm_num⟩
  rw [show getEffectivePriorityFee 1000000000 txServiceMm = 1000000000 from by decide]
  norm_num

/-- C6 (amended): predictions persisted by `MempoolMonitor.predictNextBlock`
store as `predictedGasPrice` the integer (floor) average of the effective
priority fees of the predicted transactions divided by 10^9 (Gwei), and 0
when no transaction is predicted; predictions persisted by
`PredictionService.createPrediction` instead store the estimated next base
fee in wei. -/
theorem predictedGasPrice_spec (s : MonitorState)
    (hnd : (s.pendingTransactions.map Tx.hash).Nodup) :
    (predictedGasPrice s =
      ((if 0 < (predictedTxsOf s).length then
          ((predictedTxsOf s).map (getEffectivePriorityFee s.lastBaseFee)).sum /
            ((predictedTxsOf s).length : Int)
        else 0 : Int) : ℚ) / 1000000000) ∧
    (predictedTxsOf s = [] → predictedGasPrice s = 0) ∧
    (∀ blockNumber currentBaseFee gasLimit gasUsed pendingRows p,
      createPrediction blockNumber currentBaseFee gasLimit gasUsed pendingRows = some p →
      p.predictedGasPrice = serviceNextBaseFee currentBaseFee gasLimit gasUsed) := by
  refine ⟨?_, ?_, ?_⟩
  · rw [predictedGasPrice, predictedGasPriceWei_eq s hnd]
  · intro hempty
    rw [predictedGasPrice, predictedGasPriceWei_eq s hnd, hempty]
    norm_num
  · intro blockNumber currentBaseFee gasLimit gasUsed pendingRows p hp
    rw [createPrediction] at hp
    split_ifs at hp
    rw [← Option.some.inj hp]

/-- C6 witness: at `sCexPack` the single predicted transaction `txBig` has
effective priority fee 1 wei, so the stored value is `1 / 10^9` Gwei; the
service path at the counterexample inputs stores the 2.5 Gwei base-fee
estimate in wei. -/
theorem predictedGasPrice_spec_witness :
    (sCexPack.pendingTransactions.map Tx.hash).Nodup ∧
    ((predictedGasPrice sCexPack =
      ((if 0 < (predictedTxsOf sCexPack).length then
          ((predictedTxsOf sCexPack).map (getEffectivePriorityFee sCexPack.lastBaseFee)).sum /
            ((predictedTxsOf sCexPack).length : Int)
        else 0 : Int) : ℚ) / 1000000000) ∧
    (predictedTxsOf sCexPack = [] → predictedGasPrice sCexPack = 0) ∧
    (∀ blockNumber currentBaseFee gasLimit gasUsed pendingRows p,
      createPrediction blockNumber currentBaseFee gasLimit gasUsed pendingRows = some p →
      p.predictedGasPrice = serviceNextBaseFee currentBaseFee gasLimit gasUsed)) :=
  ⟨by decide, predictedGasPrice_spec sCexPack (by decide)⟩

theorem mem_firstDedup {α : Type} [BEq α] [LawfulBEq α] {x : α} {l : List α} :
    x ∈ firstDedup l ↔ x ∈ l := by
  induction l with
  | nil => simp [firstDedup]
  | cons y ys ih =>
    simp only [firstDedup, List.mem_cons, List.mem_filter, bne_iff_ne, ne_eq]
    constructor
    · rintro (rfl | ⟨hx, _⟩)
      · exact Or.inl rfl
      · exact Or.inr (ih.mp hx)
    · rintro (rfl | hx)
      · exact Or.inl rfl
      · by_cases hxy : x = y
        · exact Or.inl hxy
        · exact Or.inr ⟨ih.mpr hx, hxy⟩

theorem mem_range'_one {i n : Nat} : i ∈ List.range' 1 n ↔ 1 ≤ i ∧ i < 1 + n := by
  rw [List.mem_range']
  constructor
  · rintro ⟨j, hj, rfl⟩
    omega
  · rintro ⟨h1, h2⟩
    exact ⟨i - 1, by omega, by omega⟩

/-- C7: a triple is emitted by the sandwich detector iff it is
`(group[0], group[i], group[last])` for some token-pair group of at least
three transactions, sorted descending by effective priority fee, and some
interior index `i` whose transaction is worth at least 0.1 ETH; transactions
whose pair extraction fails belong to no group, and `sortByFeeDesc` really is
a descending-by-fee permutation of the group. -/
theorem findSandwichOpportunities_spec (lastBaseFee : Nat) (swapTxs : List Tx)
    (f t b : Tx) :
    ((f, t, b) ∈ findSandwichOpportunities lastBaseFee swapTxs ↔
      ∃ tokenPair ∈ swapTxs.filterMap getTokenPair,
        3 ≤ (pairGroup swapTxs tokenPair).length ∧
        ∃ i, 1 ≤ i ∧ i + 2 ≤ (pairGroup swapTxs tokenPair).length ∧
          100000000000000000 ≤
            ((sortByFeeDesc lastBaseFee (pairGroup swapTxs tokenPair)).getD i default).value ∧
          f = (sortByFeeDesc lastBaseFee (pairGroup swapTxs tokenPair)).getD 0 default ∧
          t = (sortByFeeDesc lastBaseFee (pairGroup swapTxs tokenPair)).getD i default ∧
          b = (sortByFeeDesc lastBaseFee (pairGroup swapTxs tokenPair)).getD
              ((pairGroup swapTxs tokenPair).length - 1) default) ∧
    ∀ g : List Tx,
      (sortByFeeDesc lastBaseFee g).Pairwise (feeDescRel lastBaseFee) ∧
      (sortByFeeDesc lastBaseFee g).Perm g := by
  constructor
  · simp only [findSandwichOpportunities]
    constructor
    · intro hmem
      obtain ⟨k, hk, hbody⟩ := List.mem_flatMap.mp hmem
      rw [mem_firstDedup] at hk
      by_cases hlen : (pairGroup swapTxs k).length < 3
      · rw [if_pos hlen] at hbody
        cases hbody
      · rw [if_neg hlen] at hbody
        push_neg at hlen
        obtain ⟨i, hirange, hsome⟩ := List.mem_filterMap.mp hbody
        have hslen : (sortByFeeDesc lastBaseFee (pairGroup swapTxs k)).length =
            (pairGroup swapTxs k).length :=
          (List.perm_insertionSort _ _).length_eq
        have hieq := mem_range'_one.mp hirange
        by_cases hval :
            ((sortByFeeDesc lastBaseFee (pairGroup swapTxs k)).getD i default).value <
              100000000000000000
        · rw [if_pos hval] at hsome
          cases hsome
        · rw [if_neg hval] at hsome
          have heq := Option.some.inj hsome
          simp only [Prod.mk.injEq] at heq
          obtain ⟨hf, ht, hb⟩ := heq
          refine ⟨k, hk, hlen, i, hieq.1, by omega, by omega, hf.symm, ht.symm, ?_⟩
          rw [← hb, hslen]
    · rintro ⟨k, hk, h3, i, hi1, hi2, hval, hf, ht, hb⟩
      refine List.mem_flatMap.mpr ⟨k, mem_firstDedup.mpr hk, ?_⟩
      have hslen : (sortByFeeDesc lastBaseFee (pairGroup swapTxs k)).length =
          (pairGroup swapTxs k).length :=
        (List.perm_insertionSort _ _).length_eq
      rw [if_neg (not_lt.mpr h3)]
      refine List.mem_filterMap.mpr ⟨i, mem_range'_one.mpr ⟨hi1, by omega⟩, ?_⟩
      rw [if_neg (not_lt.mpr hval)]
      rw [hf, ht, hb, hslen]
  · intro g
    rw [sortByFeeDesc]
    exact ⟨List.sorted_insertionSort _ g, List.perm_insertionSort _ g⟩

/-- C8 counterexample: for the contract-creation transaction `txNoTo` (no
`to` address, non-empty calldata) the decoder returns `type = "unknown"` with
no category — the source's first check is `if (!tx.to) return { type:
"unknown" }`, and no `contract_creation`/`deployment` annotation exists
anywhere in the code (the `type` union does not even contain it). -/
theorem analyzeTransaction_no_to_counterexample :
    (analyzeTransaction txNoTo none none false false).type = some "unknown" ∧
    (analyzeTransaction txNoTo none none false false).category = none ∧
    (some "unknown" : Option String) ≠ some "contract_creation" := by
  refine ⟨rfl, rfl, by decide⟩

/-- C8 (amended): for every transaction whose `to` field is absent —
whatever its calldata and whatever the decode-oracle outcomes — the
transaction decoder produces an annotation with `type = "unknown"` and no
category; it never produces a `contract_creation`/`deployment` annotation. -/
theorem analyzeTransaction_no_to (tx : Tx) (decoded : Option (String × List String))
    (signatureName : Option String) (sandwichDetected sandwichIsTarget : Bool)
    (h : tx.toAddr = none) :
    (analyzeTransaction tx decoded signatureName sandwichDetected sandwichIsTarget).type =
      some "unknown" ∧
    (analyzeTransaction tx decoded signatureName sandwichDetected sandwichIsTarget).category =
      none := by
  simp [analyzeTransaction, h]

/-- C8 witness: the amended theorem applied to the concrete transaction
`txNoTo`. -/
theorem analyzeTransaction_no_to_witness :
    txNoTo.toAddr = none ∧
    ((analyzeTransaction txNoTo none none false false).type = some "unknown" ∧
     (analyzeTransaction txNoTo none none false false).category = none) :=
  ⟨rfl, analyzeTransaction_no_to txNoTo none none false false rfl⟩

/-- C9 counterexample: after the reconciler processes block 100 (comparison
stored successfully), the prediction for block 95 — a block number equal to
`100 − 5` — is still in the map, although the claim says every prediction for
a block number at most `N − 5` is gone. -/
theorem handleBlockPredictions_counterexample :
    handleBlockPredictions [(95, ["0xh1"])] 100 true = [(95, ["0xh1"])] ∧
    95 ≤ 100 - 5 := by
  decide

/-- C9 (amended): after the reconciler processes a canonical block N with a
successful comparison store, an entry remains in the in-memory prediction map
iff it was there before, its block number is at least `N − 5` (the source
drops only numbers strictly below `N − 5`), and it is not the consumed
prediction for N itself. -/
theorem handleBlockPredictions_membership (m : List (Nat × List String))
    (blockNumber : Nat) (e : Nat × List String) :
    e ∈ handleBlockPredictions m blockNumber true ↔
      e ∈ m ∧ blockNumber ≤ e.1 + 5 ∧ e.1 ≠ blockNumber := by
  simp only [handleBlockPredictions, cleanupOldPredictions, consumePrediction,
    if_pos, List.mem_filter, decide_eq_true_eq, Bool.not_eq_true',
    decide_eq_false_iff_not, Nat.not_lt]
  tauto

theorem lookup_mapSet (m : List (Nat × List String)) (n k : Nat)
    (v : List String) :
    (mapSet m n v).lookup k = if k = n then some v else m.lookup k := by
  induction m with
  | nil =>
    by_cases hk : k = n
    · simp [mapSet, List.lookup, hk]
    · simp [mapSet, List.lookup, hk, beq_false_of_ne hk]
  | cons hd tl ih =>
    obtain ⟨k0, v0⟩ := hd
    by_cases h0 : k0 = n
    · subst h0
      by_cases hk : k = k0
      · simp [mapSet, List.lookup, hk]
      · simp [mapSet, List.lookup, hk, beq_false_of_ne hk]
    · by_cases hk : k = k0
      · have hkn : ¬ k = n := by rw [hk]; exact h0
        simp [mapSet, h0, List.lookup, hk, hkn]
      · simp [mapSet, h0, List.lookup, hk, beq_false_of_ne hk, ih]

/-- C10: when the store write of a `BlockPrediction` fails, `predictNextBlock`
returns without registering the forecast, so the in-memory prediction map is
unchanged; on a successful write the map gains exactly the binding for the
target block number, leaving every other key untouched. -/
theorem predictNextBlock_store_atomicity (s : MonitorState) (n k : Nat) :
    (predictNextBlock s n false).blockPredictions = s.blockPredictions ∧
    ((predictNextBlock s n true).blockPredictions.lookup k =
      if k = n then some (predictedTransactionsOf s) else s.blockPredictions.lookup k) := by
  refine ⟨rfl, ?_⟩
  simp [predictNextBlock, lookup_mapSet]

end Memepool
